import Mathlib

/-!
Verification of the staking-dashboard normalization and statistics core.

The source is a Python analytics dashboard; the modules embedded here are
`utils/data_processor.py`, `utils/solana_client.py`,
`components/stake_distribution.py` and `components/network_stats.py`.
Numeric values (Python floats) are embedded as rationals `ℚ`, so every
arithmetic identity below is exact; pandas tables are embedded as lists of
row records, and Python `dict` entries that may be absent become `Option`
fields.  Code that can raise is embedded in `Option`/`Except`.
-/

namespace Staking

/-- A Python scalar as it can appear in the `activatedStake` field of a raw
validator record: a number, a numeric string (both convert with `float`),
a non-numeric string (`float` raises `ValueError`) or `None`/another
non-convertible object (`float` raises `TypeError`). -/
inductive PyVal where
  | num (q : ℚ)
  | numStr (q : ℚ)
  | badStr
  | noneVal
deriving DecidableEq

/-- Python's `float(x)` conversion: `some` of the numeric value on success,
`none` when `float` would raise `ValueError` or `TypeError`. -/
def pyFloat : PyVal → Option ℚ
  | PyVal.num q => some q
  | PyVal.numStr q => some q
  | PyVal.badStr => none
  | PyVal.noneVal => none

/-- A raw validator record as delivered by the RPC layer; `activatedStake`
is `none` when the key is missing from the underlying dict. -/
structure RawValidator where
  activatedStake : Option PyVal
  delinquent : Bool
deriving DecidableEq

/-- `validator.get("activatedStake", 0)` from the source. -/
def getStakeField (v : RawValidator) : PyVal :=
  v.activatedStake.getD (PyVal.num 0)

/-- `get_total_stake` from `utils/solana_client.py`: starts from `0`,
adds `float(validator.get("activatedStake", 0)) / 1_000_000_000` per entry,
and the per-entry `try/except (ValueError, TypeError): pass` skips exactly
the entries whose `float` conversion fails. -/
def get_total_stake (validators : List RawValidator) : ℚ :=
  validators.foldl (fun acc v =>
    match pyFloat (getStakeField v) with
    | some q => acc + q / 1000000000
    | none => acc) 0

theorem get_total_stake_foldl (vs : List RawValidator) (acc : ℚ) :
    vs.foldl (fun acc v =>
      match pyFloat (getStakeField v) with
      | some q => acc + q / 1000000000
      | none => acc) acc =
    acc + ((vs.filterMap (fun v => pyFloat (getStakeField v))).map
      (fun q => q / 1000000000)).sum := by
  induction vs generalizing acc with
  | nil => simp
  | cons v vs ih =>
    cases h : pyFloat (getStakeField v) with
    | none => simp [List.filterMap_cons, h, ih]
    | some q => simp [List.filterMap_cons, h, ih]; ring

/-- C10: `get_total_stake` never raises — it is a total function returning
the sum of `float(activatedStake) / 1e9` over exactly the entries whose
`activatedStake` parses as a number (malformed entries are skipped), and it
returns `0` when no entry parses. -/
theorem get_total_stake_skips_malformed (vs : List RawValidator) :
    get_total_stake vs =
      ((vs.filterMap (fun v => pyFloat (getStakeField v))).map
        (fun q => q / 1000000000)).sum ∧
    ((∀ v ∈ vs, pyFloat (getStakeField v) = none) → get_total_stake vs = 0) := by
  have h := get_total_stake_foldl vs 0
  refine ⟨by simpa [get_total_stake] using h, fun hall => ?_⟩
  have hnil : vs.filterMap (fun v => pyFloat (getStakeField v)) = [] :=
    List.filterMap_eq_nil_iff.mpr hall
  simpa [get_total_stake, hnil] using h

/-- Witness for C10 at a one-element list whose stake is a malformed
string: the conversion fails, the entry is skipped, the total is `0`. -/
theorem get_total_stake_skips_malformed_witness :
    (∀ v ∈ [RawValidator.mk (some PyVal.badStr) false],
      pyFloat (getStakeField v) = none) ∧
    get_total_stake [RawValidator.mk (some PyVal.badStr) false] = 0 :=
  ⟨by decide, (get_total_stake_skips_malformed _).2 (by decide)⟩

/-- The numerator of the Gini formula over indexed values:
`np.sum((2 * index - n - 1) * array)` with `index = 1..n`, read off a value
function `x` at 0-based positions. -/
def giniSum (x : ℕ → ℚ) (n : ℕ) : ℚ :=
  ∑ i ∈ Finset.range n, ((2 * ((i : ℚ) + 1)) - n - 1) * x i

/-- `calculate_gini_coefficient` from `components/stake_distribution.py`:
guard `len(array) == 0 or np.sum(array) == 0` returns `0`; otherwise the
array is sorted ascending (`np.sort`) and the result is
`np.sum((2*index - n - 1) * array) / (n * np.sum(array))`. -/
def calculate_gini_coefficient (l : List ℚ) : ℚ :=
  if l.length = 0 ∨ l.sum = 0 then 0
  else
    giniSum (fun i => (List.insertionSort (· ≤ ·) l).getD i 0) l.length /
      (l.length * (List.insertionSort (· ≤ ·) l).sum)

theorem giniSum_succ (x : ℕ → ℚ) (n : ℕ) :
    giniSum x (n + 1) =
      giniSum x n + n * x n - ∑ i ∈ Finset.range n, x i := by
  unfold giniSum
  rw [Finset.sum_range_succ]
  have h : ∀ i ∈ Finset.range n,
      ((2 * ((i : ℚ) + 1)) - (n + 1 : ℕ) - 1) * x i =
        ((2 * ((i : ℚ) + 1)) - n - 1) * x i - x i := by
    intro i _
    push_cast
    ring
  rw [Finset.sum_congr rfl h, Finset.sum_sub_distrib]
  push_cast
  ring

theorem giniSum_nonneg (x : ℕ → ℚ) (n : ℕ)
    (hmono : ∀ i j, i ≤ j → j < n → x i ≤ x j) : 0 ≤ giniSum x n := by
  induction n with
  | zero => simp [giniSum]
  | succ n ih =>
    have h1 : 0 ≤ giniSum x n :=
      ih (fun i j hij hj => hmono i j hij (Nat.lt_succ_of_lt hj))
    have h2 : ∑ i ∈ Finset.range n, x i ≤ n * x n := by
      calc ∑ i ∈ Finset.range n, x i ≤ ∑ _i ∈ Finset.range n, x n :=
            Finset.sum_le_sum (fun i hi =>
              hmono i n (Nat.le_of_lt (Finset.mem_range.mp hi)) (Nat.lt_succ_self n))
        _ = n * x n := by rw [Finset.sum_const, Finset.card_range, nsmul_eq_mul]
    rw [giniSum_succ]
    linarith

theorem giniSum_le (x : ℕ → ℚ) (n : ℕ)
    (h0 : ∀ i, i < n → 0 ≤ x i) :
    giniSum x n ≤ ((n : ℚ) - 1) * ∑ i ∈ Finset.range n, x i := by
  induction n with
  | zero => simp [giniSum]
  | succ n ih =>
    have h1 : giniSum x n ≤ ((n : ℚ) - 1) * ∑ i ∈ Finset.range n, x i :=
      ih (fun i hi => h0 i (Nat.lt_succ_of_lt hi))
    have h2 : 0 ≤ ∑ i ∈ Finset.range n, x i :=
      Finset.sum_nonneg (fun i hi => h0 i (Nat.lt_succ_of_lt (Finset.mem_range.mp hi)))
    have h3 : (0 : ℚ) ≤ n := Nat.cast_nonneg n
    have h4 : 0 ≤ x n := h0 n (Nat.lt_succ_self n)
    rw [giniSum_succ, Finset.sum_range_succ]
    push_cast
    nlinarith

theorem giniSum_const (x : ℕ → ℚ) (n : ℕ) (c : ℚ)
    (hc : ∀ i, i < n → x i = c) : giniSum x n = 0 := by
  induction n with
  | zero => simp [giniSum]
  | succ n ih =>
    have h1 : giniSum x n = 0 := ih (fun i hi => hc i (Nat.lt_succ_of_lt hi))
    have h2 : ∑ i ∈ Finset.range n, x i = n * c := by
      rw [Finset.sum_congr rfl
        (fun i hi => hc i (Nat.lt_succ_of_lt (Finset.mem_range.mp hi)))]
      rw [Finset.sum_const, Finset.card_range, nsmul_eq_mul]
    rw [giniSum_succ, h1, h2, hc n (Nat.lt_succ_self n)]
    ring

theorem getD_mono_of_sorted {S : List ℚ} (hs : S.Sorted (· ≤ ·))
    {i j : ℕ} (hij : i ≤ j) (hj : j < S.length) :
    S.getD i 0 ≤ S.getD j 0 := by
  rcases Nat.lt_or_ge i j with h | h
  · have hi : i < S.length := Nat.lt_trans h hj
    rw [List.getD_eq_getElem S 0 hi, List.getD_eq_getElem S 0 hj]
    exact hs.rel_get_of_lt h
  · have hij' : i = j := Nat.le_antisymm hij h
    subst hij'
    exact le_refl _

theorem getD_mem_of_lt {S : List ℚ} {i : ℕ} (hi : i < S.length) :
    S.getD i 0 ∈ S := by
  rw [List.getD_eq_getElem S 0 hi]
  exact List.getElem_mem hi

theorem sum_range_getD (S : List ℚ) :
    ∑ i ∈ Finset.range S.length, S.getD i 0 = S.sum := by
  induction S with
  | nil => simp
  | cons a S ih =>
    rw [List.length_cons, Finset.sum_range_succ']
    simp only [List.getD_cons_succ, List.getD_cons_zero]
    rw [ih, List.sum_cons, add_comm]

/-- C2: on any non-empty list of non-negative stakes with positive sum,
`calculate_gini_coefficient` lies in `[0, 1]`, and it is exactly `0`
whenever all the stakes are equal. -/
theorem gini_in_unit_interval (l : List ℚ) (h0 : ∀ x ∈ l, 0 ≤ x)
    (hne : l ≠ []) (hsum : 0 < l.sum) :
    0 ≤ calculate_gini_coefficient l ∧ calculate_gini_coefficient l ≤ 1 ∧
    ((∀ a ∈ l, ∀ b ∈ l, a = b) → calculate_gini_coefficient l = 0) := by
  have hlen0 : l.length ≠ 0 := fun h => hne (List.length_eq_zero.mp h)
  have hguard : ¬(l.length = 0 ∨ l.sum = 0) := by
    push_neg
    exact ⟨hlen0, ne_of_gt hsum⟩
  have hperm : (List.insertionSort (· ≤ ·) l).Perm l :=
    List.perm_insertionSort (· ≤ ·) l
  have hslen : (List.insertionSort (· ≤ ·) l).length = l.length := hperm.length_eq
  have hssum : (List.insertionSort (· ≤ ·) l).sum = l.sum := hperm.sum_eq
  have hsorted : (List.insertionSort (· ≤ ·) l).Sorted (· ≤ ·) :=
    List.sorted_insertionSort (· ≤ ·) l
  have hnum0 : 0 ≤ giniSum (fun i => (List.insertionSort (· ≤ ·) l).getD i 0) l.length := by
    apply giniSum_nonneg
    intro i j hij hj
    exact getD_mono_of_sorted hsorted hij (by rw [hslen]; exact hj)
  have hmem0 : ∀ i, i < l.length → 0 ≤ (List.insertionSort (· ≤ ·) l).getD i 0 := by
    intro i hi
    apply h0
    exact hperm.mem_iff.mp (getD_mem_of_lt (by rw [hslen]; exact hi))
  have hsum_eq : ∑ i ∈ Finset.range l.length,
      (List.insertionSort (· ≤ ·) l).getD i 0 = l.sum := by
    rw [← hslen, sum_range_getD, hssum]
  have hnum_le : giniSum (fun i => (List.insertionSort (· ≤ ·) l).getD i 0) l.length ≤
      ((l.length : ℚ) - 1) * l.sum := by
    have := giniSum_le (fun i => (List.insertionSort (· ≤ ·) l).getD i 0) l.length hmem0
    rwa [hsum_eq] at this
  have hn1 : 1 ≤ l.length := Nat.one_le_iff_ne_zero.mpr hlen0
  have hnq : (1 : ℚ) ≤ l.length := by exact_mod_cast hn1
  have hden : 0 < (l.length : ℚ) * (List.insertionSort (· ≤ ·) l).sum := by
    rw [hssum]
    exact mul_pos (by linarith) hsum
  rw [calculate_gini_coefficient, if_neg hguard]
  refine ⟨div_nonneg hnum0 (le_of_lt hden), ?_, ?_⟩
  · rw [div_le_one hden, hssum]
    nlinarith
  · intro hall
    have hx0 : (List.insertionSort (· ≤ ·) l).getD 0 0 ∈ l :=
      hperm.mem_iff.mp (getD_mem_of_lt (by rw [hslen]; exact Nat.lt_of_lt_of_le Nat.zero_lt_one hn1))
    have hconst : giniSum (fun i => (List.insertionSort (· ≤ ·) l).getD i 0) l.length = 0 := by
      apply giniSum_const _ _ ((List.insertionSort (· ≤ ·) l).getD 0 0)
      intro i hi
      exact hall _ (hperm.mem_iff.mp (getD_mem_of_lt (by rw [hslen]; exact hi))) _ hx0
    rw [hconst, zero_div]

/-- Witness for C2 at the equal-stake list `[2, 2]`: Gini is exactly 0. -/
theorem gini_in_unit_interval_witness :
    (∀ x ∈ ([2, 2] : List ℚ), 0 ≤ x) ∧ ([2, 2] : List ℚ) ≠ [] ∧
    0 < ([2, 2] : List ℚ).sum ∧ calculate_gini_coefficient [2, 2] = 0 :=
  ⟨by norm_num, by decide, by norm_num,
    (gini_in_unit_interval [2, 2] (by norm_num) (by decide) (by norm_num)).2.2
      (by norm_num)⟩

/-- pandas `Series.cumsum`: the running sum of a column. -/
def cumsum : List ℚ → List ℚ
  | [] => []
  | x :: xs => x :: (cumsum xs).map (fun y => x + y)

theorem cumsum_length (l : List ℚ) : (cumsum l).length = l.length := by
  induction l with
  | nil => rfl
  | cons x xs ih => simp [cumsum, ih]

theorem cumsum_getD (l : List ℚ) (i : ℕ) (hi : i < l.length) :
    (cumsum l).getD i 0 = (l.take (i + 1)).sum := by
  induction l generalizing i with
  | nil => simp at hi
  | cons x xs ih =>
    cases i with
    | zero => simp [cumsum]
    | succ n =>
      have hn : n < xs.length := by simpa using hi
      have hlen : n < ((cumsum xs).map (fun y => x + y)).length := by
        rw [List.length_map, cumsum_length]
        exact hn
      have hlen2 : n < (cumsum xs).length := by rw [cumsum_length]; exact hn
      have hval := ih n hn
      rw [List.getD_eq_getElem _ 0 hlen2] at hval
      show (x :: (cumsum xs).map (fun y => x + y)).getD (n + 1) 0 = _
      rw [List.getD_cons_succ, List.getD_eq_getElem _ 0 hlen, List.getElem_map, hval]
      simp [List.take_succ_cons]

theorem cumsum_chain (l : List ℚ) (h0 : ∀ x ∈ l, 0 ≤ x) :
    List.Chain' (· ≤ ·) (cumsum l) := by
  induction l with
  | nil => simp [cumsum]
  | cons x xs ih =>
    have hxs : List.Chain' (· ≤ ·) (cumsum xs) :=
      ih (fun y hy => h0 y (List.mem_cons_of_mem x hy))
    show List.Chain' (· ≤ ·) (x :: (cumsum xs).map (fun y => x + y))
    rw [List.chain'_cons']
    constructor
    · intro y hy
      cases xs with
      | nil => simp [cumsum] at hy
      | cons a as =>
        have ha : (0 : ℚ) ≤ a := h0 a (by simp)
        show x ≤ y
        have : ((cumsum (a :: as)).map (fun y => x + y)).head? = some (x + a) := by
          show ((a :: (cumsum as).map (fun y => a + y)).map (fun y => x + y)).head? = _
          simp
        rw [this] at hy
        simp only [Option.mem_def, Option.some.injEq] at hy
        subst hy
        linarith
    · rw [List.chain'_map]
      exact hxs.imp (fun a b hab => add_le_add_left hab x)

theorem cumsum_getLast (l : List ℚ) (h : l ≠ []) :
    (cumsum l).getLast? = some l.sum := by
  induction l with
  | nil => exact absurd rfl h
  | cons x xs ih =>
    cases xs with
    | nil => simp [cumsum]
    | cons a as =>
      have ih' := ih (by simp)
      have hmap : ((cumsum (a :: as)).map (fun y => x + y)).getLast? =
          some (x + (a :: as).sum) := by
        rw [List.getLast?_map, ih']
        rfl
      have hne : (cumsum (a :: as)).map (fun y => x + y) ≠ [] := by
        show (a :: (cumsum as).map (fun y => a + y)).map (fun y => x + y) ≠ []
        simp
      obtain ⟨b, bs, hbs⟩ := List.exists_cons_of_ne_nil hne
      show (x :: (cumsum (a :: as)).map (fun y => x + y)).getLast? = _
      rw [hbs, List.getLast?_cons_cons, ← hbs, hmap]
      simp [List.sum_cons]

theorem map_pct_sum (l : List ℚ) (t : ℚ) :
    (l.map (fun s => s / t * 100)).sum = l.sum / t * 100 := by
  induction l with
  | nil => simp
  | cons x xs ih => simp [ih]; ring

/-- `pd.cut(df['stakeSOL'], bins=[0, 1000, 10000, 100000, 1000000, inf])`
from `get_stake_distribution_data`: with pandas' default `right=True` the
bins are the left-open right-closed intervals `(0,1000]`, `(1000,10000]`,
`(10000,100000]`, `(100000,1000000]`, `(1000000,∞)`; a value outside every
bin (in particular a stake of exactly `0`) gets no bucket (`NaN`),
embedded here as `none`.  The five labels are embedded as `Fin 5` in label
order (`0` = smallest band). -/
def stake_bucket (s : ℚ) : Option (Fin 5) :=
  if 0 < s ∧ s ≤ 1000 then some 0
  else if 1000 < s ∧ s ≤ 10000 then some 1
  else if 10000 < s ∧ s ≤ 100000 then some 2
  else if 100000 < s ∧ s ≤ 1000000 then some 3
  else if 1000000 < s then some 4
  else none

/-- One row of the stake-distribution view built by
`get_stake_distribution_data` (`utils/data_processor.py`): the `stakeSOL`
column plus the three derived columns. -/
structure DistRow where
  stakeSOL : ℚ
  stake_percentage : ℚ
  cumulative_percentage : ℚ
  stake_bucket : Option (Fin 5)
deriving DecidableEq

/-- `get_stake_distribution_data` from `utils/data_processor.py`,
abstracted over the `stakeSOL` column of the validator table (no other
input column feeds the computed view): empty table for an empty input;
otherwise sort descending by stake, add
`stake_percentage = stakeSOL / totalStake * 100`, its running sum
`cumulative_percentage`, and the `pd.cut` bucket. -/
def get_stake_distribution_data (stakes : List ℚ) : List DistRow :=
  if stakes.isEmpty then []
  else
    ((List.insertionSort (· ≥ ·) stakes).zip
        (cumsum ((List.insertionSort (· ≥ ·) stakes).map
          (fun s => s / stakes.sum * 100)))).map
      (fun p => { stakeSOL := p.1, stake_percentage := p.1 / stakes.sum * 100,
                  cumulative_percentage := p.2, stake_bucket := stake_bucket p.1 })

theorem zip_rows_cum (total : ℚ) (l m : List ℚ) (h : l.length = m.length) :
    ((l.zip m).map (fun p => ({ stakeSOL := p.1,
                                stake_percentage := p.1 / total * 100,
                                cumulative_percentage := p.2,
                                stake_bucket := stake_bucket p.1 } : DistRow))).map
      DistRow.cumulative_percentage = m := by
  induction l generalizing m with
  | nil => cases m with
    | nil => rfl
    | cons b m => simp at h
  | cons a l ih =>
    cases m with
    | nil => simp at h
    | cons b m =>
      simp only [List.zip_cons_cons, List.map_cons]
      congr 1
      exact ih m (by simpa using h)

theorem dist_cum_col (stakes : List ℚ) (hne : stakes ≠ []) :
    (get_stake_distribution_data stakes).map DistRow.cumulative_percentage =
      cumsum ((List.insertionSort (· ≥ ·) stakes).map
        (fun s => s / stakes.sum * 100)) := by
  unfold get_stake_distribution_data
  rw [if_neg (by simpa [List.isEmpty_iff] using hne)]
  exact zip_rows_cum _ _ _ (by rw [cumsum_length, List.length_map])

theorem mem_dist_bucket (stakes : List ℚ) (r : DistRow)
    (hr : r ∈ get_stake_distribution_data stakes) :
    r.stake_bucket = stake_bucket r.stakeSOL := by
  unfold get_stake_distribution_data at hr
  by_cases he : stakes.isEmpty
  · rw [if_pos he] at hr
    simp at hr
  · rw [if_neg he] at hr
    obtain ⟨p, _, hp⟩ := List.mem_map.mp hr
    rw [← hp]

/-- C5: for non-negative stakes with positive total, the
`cumulative_percentage` column of the stake-distribution view is
monotonically non-decreasing and its final value is exactly `100`. -/
theorem cumulative_percentage_monotone_total (stakes : List ℚ)
    (h0 : ∀ x ∈ stakes, 0 ≤ x) (hs : 0 < stakes.sum) :
    List.Chain' (· ≤ ·)
      ((get_stake_distribution_data stakes).map DistRow.cumulative_percentage) ∧
    ((get_stake_distribution_data stakes).map
      DistRow.cumulative_percentage).getLast? = some 100 := by
  have hne : stakes ≠ [] := by
    rintro rfl
    exact absurd hs (by simp)
  rw [dist_cum_col stakes hne]
  constructor
  · apply cumsum_chain
    intro y hy
    obtain ⟨s, hsmem, rfl⟩ := List.mem_map.mp hy
    have hmem : s ∈ stakes :=
      (List.perm_insertionSort (· ≥ ·) stakes).mem_iff.mp hsmem
    exact mul_nonneg (div_nonneg (h0 s hmem) (le_of_lt hs)) (by norm_num)
  · have hmapne : (List.insertionSort (· ≥ ·) stakes).map
        (fun s => s / stakes.sum * 100) ≠ [] := by
      intro hmap
      have hl := congrArg List.length hmap
      rw [List.length_map, List.length_insertionSort] at hl
      exact hne (List.length_eq_zero.mp hl)
    rw [cumsum_getLast _ hmapne, map_pct_sum,
      (List.perm_insertionSort (· ≥ ·) stakes).sum_eq,
      div_self (ne_of_gt hs)]
    norm_num

/-- Witness for C5 at the stake list `[3, 1, 2]`. -/
theorem cumulative_percentage_monotone_total_witness :
    (∀ x ∈ ([3, 1, 2] : List ℚ), 0 ≤ x) ∧ 0 < ([3, 1, 2] : List ℚ).sum ∧
    (List.Chain' (· ≤ ·) ((get_stake_distribution_data [3, 1, 2]).map
       DistRow.cumulative_percentage) ∧
     ((get_stake_distribution_data [3, 1, 2]).map
       DistRow.cumulative_percentage).getLast? = some 100) :=
  ⟨by norm_num, by norm_num,
    cumulative_percentage_monotone_total [3, 1, 2] (by norm_num) (by norm_num)⟩

theorem stake_bucket_cases (s : ℚ) :
    (0 < s → (stake_bucket s).isSome = true) ∧
    (stake_bucket s = some 0 → 0 < s ∧ s ≤ 1000) ∧
    (stake_bucket s = some 1 → 1000 < s ∧ s ≤ 10000) ∧
    (stake_bucket s = some 2 → 10000 < s ∧ s ≤ 100000) ∧
    (stake_bucket s = some 3 → 100000 < s ∧ s ≤ 1000000) ∧
    (stake_bucket s = some 4 → 1000000 < s) ∧
    (s ≤ 0 → stake_bucket s = none) := by
  unfold stake_bucket
  split_ifs with h1 h2 h3 h4 h5
  · exact ⟨fun _ => rfl, fun _ => h1,
      fun h => absurd h (by decide), fun h => absurd h (by decide),
      fun h => absurd h (by decide), fun h => absurd h (by decide),
      fun hs0 => absurd h1.1 (not_lt.mpr hs0)⟩
  · exact ⟨fun _ => rfl, fun h => absurd h (by decide), fun _ => h2,
      fun h => absurd h (by decide), fun h => absurd h (by decide),
      fun h => absurd h (by decide),
      fun hs0 => absurd (lt_trans (by norm_num) h2.1) (not_lt.mpr hs0)⟩
  · exact ⟨fun _ => rfl, fun h => absurd h (by decide),
      fun h => absurd h (by decide), fun _ => h3,
      fun h => absurd h (by decide), fun h => absurd h (by decide),
      fun hs0 => absurd (lt_trans (by norm_num) h3.1) (not_lt.mpr hs0)⟩
  · exact ⟨fun _ => rfl, fun h => absurd h (by decide),
      fun h => absurd h (by decide), fun h => absurd h (by decide),
      fun _ => h4, fun h => absurd h (by decide),
      fun hs0 => absurd (lt_trans (by norm_num) h4.1) (not_lt.mpr hs0)⟩
  · exact ⟨fun _ => rfl, fun h => absurd h (by decide),
      fun h => absurd h (by decide), fun h => absurd h (by decide),
      fun h => absurd h (by decide), fun _ => h5,
      fun hs0 => absurd (lt_trans (by norm_num) h5) (not_lt.mpr hs0)⟩
  · have hs0 : s ≤ 0 := by
      by_contra hpos
      push_neg at hpos
      rcases le_or_lt s 1000 with c1 | c1
      · exact h1 ⟨hpos, c1⟩
      · rcases le_or_lt s 10000 with c2 | c2
        · exact h2 ⟨c1, c2⟩
        · rcases le_or_lt s 100000 with c3 | c3
          · exact h3 ⟨c2, c3⟩
          · rcases le_or_lt s 1000000 with c4 | c4
            · exact h4 ⟨c3, c4⟩
            · exact h5 c4
    exact ⟨fun hpos => absurd hpos (not_lt.mpr hs0),
      fun h => absurd h (by decide), fun h => absurd h (by decide),
      fun h => absurd h (by decide), fun h => absurd h (by decide),
      fun h => absurd h (by decide), fun _ => rfl⟩

/-- C4 (amended): every row of the stake-distribution view whose stake is
positive gets exactly one bucket, and the buckets are the left-open
right-closed bands `(0,1000]`, `(1000,10^4]`, `(10^4,10^5]`, `(10^5,10^6]`,
`(10^6,∞)`: a stake equal to a band boundary falls into the band whose
RIGHT endpoint it equals, and a stake of exactly `0` gets no bucket. -/
theorem stake_bucket_bands (stakes : List ℚ) (r : DistRow)
    (hr : r ∈ get_stake_distribution_data stakes) :
    (0 < r.stakeSOL → r.stake_bucket.isSome = true) ∧
    (r.stake_bucket = some 0 → 0 < r.stakeSOL ∧ r.stakeSOL ≤ 1000) ∧
    (r.stake_bucket = some 1 → 1000 < r.stakeSOL ∧ r.stakeSOL ≤ 10000) ∧
    (r.stake_bucket = some 2 → 10000 < r.stakeSOL ∧ r.stakeSOL ≤ 100000) ∧
    (r.stake_bucket = some 3 → 100000 < r.stakeSOL ∧ r.stakeSOL ≤ 1000000) ∧
    (r.stake_bucket = some 4 → 1000000 < r.stakeSOL) ∧
    (r.stakeSOL ≤ 0 → r.stake_bucket = none) := by
  rw [mem_dist_bucket stakes r hr]
  exact stake_bucket_cases r.stakeSOL

/-- The single row of the distribution view of a lone 500-SOL validator. -/
def row500 : DistRow :=
  { stakeSOL := 500, stake_percentage := 100,
    cumulative_percentage := 100, stake_bucket := some 0 }

/-- Witness for C4 on the one-validator table with stake 500. -/
theorem stake_bucket_bands_witness :
    row500 ∈ get_stake_distribution_data [500] ∧
    ((0 < row500.stakeSOL → row500.stake_bucket.isSome = true) ∧
     (row500.stake_bucket = some 0 → 0 < row500.stakeSOL ∧ row500.stakeSOL ≤ 1000) ∧
     (row500.stake_bucket = some 1 → 1000 < row500.stakeSOL ∧ row500.stakeSOL ≤ 10000) ∧
     (row500.stake_bucket = some 2 → 10000 < row500.stakeSOL ∧ row500.stakeSOL ≤ 100000) ∧
     (row500.stake_bucket = some 3 → 100000 < row500.stakeSOL ∧ row500.stakeSOL ≤ 1000000) ∧
     (row500.stake_bucket = some 4 → 1000000 < row500.stakeSOL) ∧
     (row500.stakeSOL ≤ 0 → row500.stake_bucket = none)) :=
  ⟨by norm_num [get_stake_distribution_data, cumsum, stake_bucket, row500,
      List.insertionSort, List.orderedInsert],
   stake_bucket_bands [500] row500
     (by norm_num [get_stake_distribution_data, cumsum, stake_bucket, row500,
        List.insertionSort, List.orderedInsert])⟩

/-- C4 counterexample: a stake of exactly `1000` lands in the smallest
bucket (label `0`, the spec's "[0,1000)" band), not in the "[1000,10000)"
band (label `1`) that the claim requires; a stake of exactly `0` gets no
bucket at all instead of the "[0,1000)" band. -/
theorem stake_bucket_boundary_counterexample :
    (get_stake_distribution_data [1000]).map DistRow.stake_bucket = [some 0] ∧
    (get_stake_distribution_data [500, 0]).map DistRow.stake_bucket =
      [some 0, none] ∧
    (some (0 : Fin 5) ≠ some 1) ∧ ((none : Option (Fin 5)) ≠ some 0) := by
  refine ⟨?_, ?_, by decide, by decide⟩ <;>
    norm_num [get_stake_distribution_data, cumsum, stake_bucket,
      List.insertionSort, List.orderedInsert]

/-- The arithmetic core of `get_validator_threshold`
(`components/stake_distribution.py`): the 0-based index of the first row
whose `cumulative_percentage` reaches the target
(`df[df['cumulative_percentage'] >= percentage].index.min()`), plus one;
`len(df)` when no row reaches it. -/
def threshold_count (df : List DistRow) (t : ℚ) : ℕ :=
  match df.findIdx? (fun r => decide (t ≤ r.cumulative_percentage)) with
  | some i => i + 1
  | none => df.length

/-- `get_validator_threshold`: `None` on an empty table (the
`df.empty or 'cumulative_percentage' not in df.columns` guard), otherwise
the count computed by `threshold_count`. -/
def get_validator_threshold (df : List DistRow) (t : ℚ) : Option ℕ :=
  if df.isEmpty then none else some (threshold_count df t)

theorem threshold_count_cons (r : DistRow) (df : List DistRow) (t : ℚ) :
    threshold_count (r :: df) t =
      if t ≤ r.cumulative_percentage then 1 else threshold_count df t + 1 := by
  unfold threshold_count
  rw [List.findIdx?_cons]
  by_cases h : t ≤ r.cumulative_percentage
  · rw [if_pos (by simpa using h), if_pos h]
  · rw [if_neg (by simpa using h), if_neg h]
    rw [show (1 : ℕ) = 0 + 1 from rfl, List.findIdx?_succ]
    cases hfi : df.findIdx? (fun r => decide (t ≤ r.cumulative_percentage)) with
    | none => simp [hfi]
    | some i => simp [hfi]

theorem threshold_count_mono (df : List DistRow) {t u : ℚ} (h : t ≤ u) :
    threshold_count df t ≤ threshold_count df u := by
  induction df with
  | nil => exact le_refl _
  | cons r df ih =>
    rw [threshold_count_cons, threshold_count_cons]
    by_cases h1 : u ≤ r.cumulative_percentage
    · rw [if_pos h1, if_pos (le_trans h h1)]
    · rw [if_neg h1]
      by_cases h2 : t ≤ r.cumulative_percentage
      · rw [if_pos h2]
        exact Nat.succ_le_succ (Nat.zero_le _)
      · rw [if_neg h2]
        exact Nat.succ_le_succ ih

/-- C8: on any non-empty stake-distribution table the threshold validator
counts returned for the targets 33, 50, 66, 90 exist and are monotonically
non-decreasing in the target. -/
theorem threshold_monotone_in_target (df : List DistRow) (hne : df ≠ []) :
    get_validator_threshold df 33 = some (threshold_count df 33) ∧
    get_validator_threshold df 50 = some (threshold_count df 50) ∧
    get_validator_threshold df 66 = some (threshold_count df 66) ∧
    get_validator_threshold df 90 = some (threshold_count df 90) ∧
    threshold_count df 33 ≤ threshold_count df 50 ∧
    threshold_count df 50 ≤ threshold_count df 66 ∧
    threshold_count df 66 ≤ threshold_count df 90 := by
  have he : ¬df.isEmpty = true := fun h => hne (List.isEmpty_iff.mp h)
  have hgv : ∀ u : ℚ, get_validator_threshold df u = some (threshold_count df u) := by
    intro u
    unfold get_validator_threshold
    rw [if_neg he]
  exact ⟨hgv 33, hgv 50, hgv 66, hgv 90,
    threshold_count_mono df (by norm_num),
    threshold_count_mono df (by norm_num),
    threshold_count_mono df (by norm_num)⟩

/-- Witness for C8 on a one-row table. -/
theorem threshold_monotone_in_target_witness :
    ([row500] : List DistRow) ≠ [] ∧
    (get_validator_threshold [row500] 33 = some (threshold_count [row500] 33) ∧
     get_validator_threshold [row500] 50 = some (threshold_count [row500] 50) ∧
     get_validator_threshold [row500] 66 = some (threshold_count [row500] 66) ∧
     get_validator_threshold [row500] 90 = some (threshold_count [row500] 90) ∧
     threshold_count [row500] 33 ≤ threshold_count [row500] 50 ∧
     threshold_count [row500] 50 ≤ threshold_count [row500] 66 ∧
     threshold_count [row500] 66 ≤ threshold_count [row500] 90) :=
  ⟨by decide, threshold_monotone_in_target [row500] (by decide)⟩

/-- Cumulative percentage of the `k` largest stakes, as the spec words it. -/
def topk_percent (stakes : List ℚ) (k : ℕ) : ℚ :=
  ((List.insertionSort (· ≥ ·) stakes).take k).sum / stakes.sum * 100

/-- The spec-side threshold, written from the spec's words (for comparison
with the code's `get_validator_threshold`): the smallest count `k` such
that the cumulative stake percentage of the `k` largest validators is at
least `t` — `List.find?` over `0..n-1` returns the first (hence smallest)
index whose `k = i+1` qualifies — and the total validator count when no
`k` qualifies. -/
def spec_threshold_count (stakes : List ℚ) (t : ℚ) : ℕ :=
  match (List.range stakes.length).find?
      (fun i => decide (t ≤ topk_percent stakes (i + 1))) with
  | some i => i + 1
  | none => stakes.length

theorem find_congr_mem {α : Type} (l : List α) (p q : α → Bool)
    (h : ∀ x ∈ l, p x = q x) : l.find? p = l.find? q := by
  induction l with
  | nil => rfl
  | cons a l ih =>
    by_cases ha : p a
    · rw [List.find?_cons_of_pos _ ha,
        List.find?_cons_of_pos _ ((h a (List.mem_cons_self a l)) ▸ ha)]
    · rw [List.find?_cons_of_neg _ ha,
        List.find?_cons_of_neg _ ((h a (List.mem_cons_self a l)) ▸ ha)]
      exact ih (fun x hx => h x (List.mem_cons_of_mem a hx))

theorem findIdx_eq_range_find {α : Type} (d : α) (l : List α) (p : α → Bool) :
    l.findIdx? p = (List.range l.length).find? (fun i => p (l.getD i d)) := by
  induction l with
  | nil => rfl
  | cons a l ih =>
    rw [List.length_cons, List.range_succ_eq_map, List.findIdx?_cons]
    by_cases ha : p a
    · rw [if_pos ha, List.find?_cons_of_pos _ (by simpa using ha)]
    · rw [if_neg ha, List.find?_cons_of_neg _ (by simpa using ha)]
      rw [show (1 : ℕ) = 0 + 1 from rfl, List.findIdx?_succ, ih, List.find?_map]
      have hq : ((fun i => p ((a :: l).getD i d)) ∘ Nat.succ) =
          (fun i => p (l.getD i d)) := rfl
      rw [hq]

theorem dist_length (stakes : List ℚ) :
    (get_stake_distribution_data stakes).length = stakes.length := by
  unfold get_stake_distribution_data
  by_cases he : stakes.isEmpty
  · rw [if_pos he]
    simp [List.isEmpty_iff.mp he]
  · rw [if_neg he]
    rw [List.length_map, List.length_zip, cumsum_length, List.length_map,
      List.length_insertionSort]
    exact Nat.min_self _

/-- C3 (amended): on every NON-EMPTY stake table, `get_validator_threshold`
returns `some` of the smallest count `k` whose top-`k` cumulative stake
percentage reaches the target, saturating to the total validator count
when no count qualifies.  (On the empty table it returns `None` instead of
the count — see the counterexample.) -/
theorem validator_threshold_least_count (stakes : List ℚ) (t : ℚ)
    (hne : stakes ≠ []) :
    get_validator_threshold (get_stake_distribution_data stakes) t =
      some (spec_threshold_count stakes t) := by
  have htab : get_stake_distribution_data stakes ≠ [] := by
    intro h
    have hl := dist_length stakes
    rw [h] at hl
    exact hne (List.length_eq_zero.mp hl.symm)
  unfold get_validator_threshold
  rw [if_neg (fun hI => htab (List.isEmpty_iff.mp hI))]
  congr 1
  unfold threshold_count spec_threshold_count
  have h1 : (get_stake_distribution_data stakes).findIdx?
      (fun r => decide (t ≤ r.cumulative_percentage)) =
      ((get_stake_distribution_data stakes).map
        DistRow.cumulative_percentage).findIdx? (fun c => decide (t ≤ c)) := by
    rw [List.findIdx?_map]
    rfl
  have hlen : (cumsum ((List.insertionSort (· ≥ ·) stakes).map
      (fun s => s / stakes.sum * 100))).length = stakes.length := by
    rw [cumsum_length, List.length_map, List.length_insertionSort]
  have hidx : (get_stake_distribution_data stakes).findIdx?
      (fun r => decide (t ≤ r.cumulative_percentage)) =
      (List.range stakes.length).find?
        (fun i => decide (t ≤ topk_percent stakes (i + 1))) := by
    rw [h1, dist_cum_col stakes hne, findIdx_eq_range_find 0, hlen]
    apply find_congr_mem
    intro i hi
    have hi' : i < stakes.length := List.mem_range.mp hi
    have hD : (cumsum ((List.insertionSort (· ≥ ·) stakes).map
        (fun s => s / stakes.sum * 100))).getD i 0 =
        topk_percent stakes (i + 1) := by
      rw [cumsum_getD _ i
        (by rw [List.length_map, List.length_insertionSort]; exact hi')]
      rw [← List.map_take, map_pct_sum]
      rfl
    rw [hD]
  rw [hidx]
  cases hf : (List.range stakes.length).find?
      (fun i => decide (t ≤ topk_percent stakes (i + 1))) with
  | some i => rfl
  | none => simp [dist_length]

/-- Witness for C3 on a one-validator table with target 33. -/
theorem validator_threshold_least_count_witness :
    ([500] : List ℚ) ≠ [] ∧
    get_validator_threshold (get_stake_distribution_data [500]) 33 =
      some (spec_threshold_count [500] 33) :=
  ⟨by decide, validator_threshold_least_count [500] 33 (by decide)⟩

/-- C3 counterexample: on the empty stake-distribution table the code
returns `None`, not the total validator count (`some 0`) that the claim's
saturation clause requires. -/
theorem empty_table_threshold_counterexample :
    get_validator_threshold (get_stake_distribution_data []) 33 = none ∧
    get_validator_threshold (get_stake_distribution_data []) 33 ≠
      some (get_stake_distribution_data []).length := by
  constructor <;> simp [get_validator_threshold, get_stake_distribution_data]

/-- A raw vote-account record as consumed by `process_validators_data`:
stake in lamports, commission, vote-account flag, the epoch-credit history
(each entry a list of integers, `(epoch, creditsEnd, creditsStart)` in the
RPC's order), and the delinquency flag. -/
structure VoteValidator where
  activatedStake : ℚ
  commission : ℚ
  epochVoteAccount : Bool
  epochCredits : List (List ℤ)
  delinquent : Bool
deriving DecidableEq

/-- The per-row vote-success computation of `process_validators_data`
(`utils/data_processor.py`): `0` for a missing/empty history; otherwise
the code takes the LAST history entry, reads `prev_credits = entry[1]` and
`current_credits = entry[2]`, and yields
`(current_credits - prev_credits) / prev_credits` when `prev_credits > 0`,
else `0`; an out-of-range index (`IndexError`) is caught and yields `0`. -/
def voteSuccessRate (credits : List (List ℤ)) : ℚ :=
  if credits.isEmpty then 0
  else
    match (credits.getLast?.getD [0, 0, 0]).get? 1,
        (credits.getLast?.getD [0, 0, 0]).get? 2 with
    | some prev, some cur =>
        if 0 < prev then ((cur : ℚ) - (prev : ℚ)) / (prev : ℚ) else 0
    | _, _ => 0

/-- A processed validator row: the derived columns of
`process_validators_data` that later views consume. -/
structure ProcessedValidator where
  stakeSOL : ℚ
  voteSuccessRate : ℚ
  delinquent : Bool
deriving DecidableEq

/-- `process_validators_data`: add `stakeSOL = activatedStake / 1e9` and
`voteSuccessRate`, sort descending by `stakeSOL`. -/
def process_validators_data (validators : List VoteValidator) :
    List ProcessedValidator :=
  List.insertionSort (fun a b => a.stakeSOL ≥ b.stakeSOL)
    (validators.map (fun v =>
      { stakeSOL := v.activatedStake / 1000000000,
        voteSuccessRate := voteSuccessRate v.epochCredits,
        delinquent := v.delinquent }))

/-- The spec's vote-success formula,
`(creditsEnd − creditsStart) / creditsStart` with a zero guard on
`creditsStart`, written from the spec's words for comparison with the
code. -/
def spec_vote_success_rate (creditsEnd creditsStart : ℤ) : ℚ :=
  if creditsStart = 0 then 0
  else ((creditsEnd : ℚ) - (creditsStart : ℚ)) / (creditsStart : ℚ)

/-- C1: the code diverges from the claim.  On the most recent epoch-credit
entry `(epoch, creditsEnd, creditsStart) = (100, 64000, 32000)` — a
validator that doubled its credits — the claim's formula
`(creditsEnd − creditsStart) / creditsStart` gives `1`, but
`process_validators_data` computes `(entry[2] − entry[1]) / entry[1] =
(creditsStart − creditsEnd) / creditsEnd = −1/2`, a negative "success
rate": the code swaps the two credit fields (its `prev_credits` is the
entry's creditsEnd, its `current_credits` the entry's creditsStart) and
guards on `entry[1]` instead of `creditsStart`. -/
theorem vote_success_rate_divergence :
    (process_validators_data
      [{ activatedStake := 32000000000, commission := 5,
         epochVoteAccount := true,
         epochCredits := [[100, 64000, 32000]], delinquent := false }]).map
      ProcessedValidator.voteSuccessRate = [-(1 : ℚ)/2] ∧
    spec_vote_success_rate 64000 32000 = 1 := by
  constructor
  · norm_num [process_validators_data, voteSuccessRate,
      List.insertionSort, List.orderedInsert]
  · norm_num [spec_vote_success_rate]

/-- A raw performance sample (`getRecentPerformanceSamples` shape). -/
structure PerfSample where
  slot : ℚ
  numTransactions : ℚ
  numSlots : ℚ
  samplePeriodSecs : ℚ
deriving DecidableEq

/-- `process_performance_data`: sort ascending by slot.  (The added
`time_index` column `0..n-1` only feeds the chart payload and none of the
claimed metrics, so it is not materialized.) -/
def process_performance_data (samples : List PerfSample) : List PerfSample :=
  List.insertionSort (fun a b => a.slot ≤ b.slot) samples

/-- Max of a pandas series (`Series.max()`), used on non-empty series. -/
def seriesMax : List ℚ → ℚ
  | [] => 0
  | x :: xs => xs.foldl max x

/-- The metrics dict built by `get_performance_metrics`. -/
structure PerfMetrics where
  avg_tps : ℚ
  max_tps : ℚ
  avg_slots_per_second : ℚ
deriving DecidableEq

/-- `get_performance_metrics` (`utils/data_processor.py`): the empty
metrics dict (`none`) on an empty table; otherwise
`tps = numTransactions / samplePeriodSecs` per row, `avg_tps` its mean,
`max_tps` its max and `avg_slots_per_second` the mean of
`numSlots / samplePeriodSecs`.  (The `tps_time_series` chart payload is
not modelled.) -/
def get_performance_metrics (table : List PerfSample) : Option PerfMetrics :=
  if table.isEmpty then none
  else
    some { avg_tps :=
             (table.map (fun s => s.numTransactions / s.samplePeriodSecs)).sum
               / table.length,
           max_tps :=
             seriesMax (table.map (fun s => s.numTransactions / s.samplePeriodSecs)),
           avg_slots_per_second :=
             (table.map (fun s => s.numSlots / s.samplePeriodSecs)).sum
               / table.length }

theorem foldl_max_mem (xs : List ℚ) (a : ℚ) :
    xs.foldl max a = a ∨ xs.foldl max a ∈ xs := by
  induction xs generalizing a with
  | nil => exact Or.inl rfl
  | cons x xs ih =>
    rcases ih (max a x) with h | h
    · rcases max_choice a x with hm | hm
      · exact Or.inl (by rw [List.foldl_cons, h, hm])
      · exact Or.inr (by rw [List.foldl_cons, h, hm]; exact List.mem_cons_self x xs)
    · exact Or.inr (List.mem_cons_of_mem x h)

theorem foldl_max_ge_init (xs : List ℚ) (a : ℚ) : a ≤ xs.foldl max a := by
  induction xs generalizing a with
  | nil => exact le_refl a
  | cons x xs ih =>
    rw [List.foldl_cons]
    exact le_trans (le_max_left a x) (ih (max a x))

theorem foldl_max_ge_mem (xs : List ℚ) (a : ℚ) :
    ∀ x ∈ xs, x ≤ xs.foldl max a := by
  induction xs generalizing a with
  | nil => intro x hx; simp at hx
  | cons y xs ih =>
    intro x hx
    rcases List.mem_cons.mp hx with rfl | hx
    · rw [List.foldl_cons]
      exact le_trans (le_max_right a x) (foldl_max_ge_init xs (max a x))
    · rw [List.foldl_cons]
      exact ih (max a y) x hx

theorem seriesMax_mem (l : List ℚ) (h : l ≠ []) : seriesMax l ∈ l := by
  cases l with
  | nil => exact absurd rfl h
  | cons x xs =>
    rcases foldl_max_mem xs x with hm | hm
    · rw [seriesMax, hm]; exact List.mem_cons_self x xs
    · exact List.mem_cons_of_mem x hm

theorem seriesMax_ge (l : List ℚ) : ∀ x ∈ l, x ≤ seriesMax l := by
  cases l with
  | nil => intro x hx; simp at hx
  | cons y xs =>
    intro x hx
    rcases List.mem_cons.mp hx with rfl | hx
    · exact foldl_max_ge_init xs x
    · exact foldl_max_ge_mem xs y x hx

/-- C7: on every non-empty performance table the metrics are present with
`avg_tps` the mean and `max_tps` the maximum of per-sample
`numTransactions / samplePeriodSecs`; the spec's two-sample scenario
(slot 1: 1000 tx / 10 s, slot 2: 2000 tx / 10 s) yields
`avg_tps = 150`, `max_tps = 200`. -/
theorem performance_metrics_mean_max :
    (∀ table : List PerfSample, table ≠ [] →
      (get_performance_metrics table).map PerfMetrics.avg_tps =
        some ((table.map (fun s => s.numTransactions / s.samplePeriodSecs)).sum
          / table.length) ∧
      (get_performance_metrics table).map PerfMetrics.max_tps =
        some (seriesMax
          (table.map (fun s => s.numTransactions / s.samplePeriodSecs))) ∧
      seriesMax (table.map (fun s => s.numTransactions / s.samplePeriodSecs)) ∈
        table.map (fun s => s.numTransactions / s.samplePeriodSecs) ∧
      (∀ x ∈ table.map (fun s => s.numTransactions / s.samplePeriodSecs),
        x ≤ seriesMax
          (table.map (fun s => s.numTransactions / s.samplePeriodSecs)))) ∧
    get_performance_metrics (process_performance_data
      [{ slot := 1, numTransactions := 1000, numSlots := 10,
         samplePeriodSecs := 10 },
       { slot := 2, numTransactions := 2000, numSlots := 10,
         samplePeriodSecs := 10 }]) =
      some { avg_tps := 150, max_tps := 200, avg_slots_per_second := 1 } := by
  constructor
  · intro table hne
    have he : ¬table.isEmpty = true := fun h => hne (List.isEmpty_iff.mp h)
    have hmapne : table.map (fun s => s.numTransactions / s.samplePeriodSecs) ≠ [] := by
      intro hmap
      have hl := congrArg List.length hmap
      rw [List.length_map] at hl
      exact hne (List.length_eq_zero.mp hl)
    unfold get_performance_metrics
    rw [if_neg he]
    exact ⟨rfl, rfl, seriesMax_mem _ hmapne, seriesMax_ge _⟩
  · norm_num [get_performance_metrics, process_performance_data, seriesMax,
      List.insertionSort, List.orderedInsert]

/-- The single sample used by the C7 witness. -/
def perfSample1 : PerfSample :=
  { slot := 1, numTransactions := 1000, numSlots := 10, samplePeriodSecs := 10 }

/-- Witness for C7 at a one-sample table. -/
theorem performance_metrics_mean_max_witness :
    ([perfSample1] : List PerfSample) ≠ [] ∧
    ((get_performance_metrics [perfSample1]).map PerfMetrics.avg_tps =
      some (([perfSample1].map
          (fun s => s.numTransactions / s.samplePeriodSecs)).sum
        / ([perfSample1] : List PerfSample).length) ∧
     (get_performance_metrics [perfSample1]).map PerfMetrics.max_tps =
      some (seriesMax ([perfSample1].map
        (fun s => s.numTransactions / s.samplePeriodSecs))) ∧
     seriesMax ([perfSample1].map
         (fun s => s.numTransactions / s.samplePeriodSecs)) ∈
       [perfSample1].map (fun s => s.numTransactions / s.samplePeriodSecs) ∧
     (∀ x ∈ [perfSample1].map (fun s => s.numTransactions / s.samplePeriodSecs),
        x ≤ seriesMax ([perfSample1].map
          (fun s => s.numTransactions / s.samplePeriodSecs)))) :=
  ⟨by decide, performance_metrics_mean_max.1 [perfSample1] (by decide)⟩

/-- The supply dict (`getSupply`), fields in lamports; a missing key is
`none`, a missing/empty dict is modelled by `Option SupplyInfo = none`
(Python's falsy `{}`/`None`). -/
structure SupplyInfo where
  circulating : Option ℚ
  total : Option ℚ
deriving DecidableEq

/-- The stats dict built by `calculate_network_stats`; `none` = the key
was never set.  (The `epoch_info`/`inflation_info` merges populate other
keys of the same dict and never touch the fields modelled here.) -/
structure NetworkStats where
  total_validators : Option ℕ
  active_validators : Option ℕ
  delinquent_validators : Option ℕ
  total_active_stake : Option ℚ
  stake_concentration_top10 : Option ℚ
  staking_rate : Option ℚ
  total_supply : Option ℚ
deriving DecidableEq

/-- `calculate_network_stats` from `utils/data_processor.py`.
`Except.error ()` marks the two places where the Python would raise: the
un-guarded `float(...)` sort key over a malformed stake (inside the
`total_stake > 0` branch) and the `ZeroDivisionError` of
`total_active_stake / circulating_supply` when circulating supply is zero.
On an empty validator list the whole `if validators:` block is skipped, so
`total_active_stake` is never set, and the supply block — guarded by
`'total_active_stake' in stats` — is skipped too: no concentration or
staking-rate key is ever set. -/
def calculate_network_stats (validators : List RawValidator)
    (supply : Option SupplyInfo) : Except Unit NetworkStats :=
  if validators.isEmpty then
    Except.ok { total_validators := none, active_validators := none,
                delinquent_validators := none, total_active_stake := none,
                stake_concentration_top10 := none, staking_rate := none,
                total_supply := none }
  else
    match (if 0 < get_total_stake validators then
        match validators.mapM (fun v => pyFloat (getStakeField v)) with
        | none => Except.error ()
        | some keys =>
            Except.ok ((((List.insertionSort (· ≥ ·) keys).take 10).sum
              / 1000000000) / get_total_stake validators * 100)
      else Except.ok 0 : Except Unit ℚ) with
    | Except.error e => Except.error e
    | Except.ok conc =>
      match supply with
      | none =>
          Except.ok { total_validators := some validators.length,
                      active_validators :=
                        some (validators.filter (fun v => !v.delinquent)).length,
                      delinquent_validators :=
                        some (validators.filter (fun v => v.delinquent)).length,
                      total_active_stake := some (get_total_stake validators),
                      stake_concentration_top10 := some conc,
                      staking_rate := none, total_supply := none }
      | some sp =>
          match (match sp.circulating with
            | none => Except.ok none
            | some c =>
                if c / 1000000000 = 0 then Except.error ()
                else Except.ok (some (get_total_stake validators
                  / (c / 1000000000) * 100)) : Except Unit (Option ℚ)) with
          | Except.error e => Except.error e
          | Except.ok rate =>
              Except.ok { total_validators := some validators.length,
                          active_validators :=
                            some (validators.filter (fun v => !v.delinquent)).length,
                          delinquent_validators :=
                            some (validators.filter (fun v => v.delinquent)).length,
                          total_active_stake := some (get_total_stake validators),
                          stake_concentration_top10 := some conc,
                          staking_rate := rate,
                          total_supply := sp.total.map (fun t => t / 1000000000) }

/-- C6 (amended): on an empty validator list nothing raises, the Gini
coefficient returns its defined default `0`, and the concentration and
staking-rate statistics are OMITTED from the stats dict rather than set to
`0` (consumers reading the keys with a default of `0` observe `0`). -/
theorem empty_validators_defaults (supply : Option SupplyInfo) :
    calculate_network_stats [] supply =
      Except.ok { total_validators := none, active_validators := none,
                  delinquent_validators := none, total_active_stake := none,
                  stake_concentration_top10 := none, staking_rate := none,
                  total_supply := none } ∧
    calculate_gini_coefficient [] = 0 :=
  ⟨rfl, by simp [calculate_gini_coefficient]⟩

/-- C6 counterexample: with an empty validator list (and a perfectly good
supply dict) the stats dict does NOT map `staking_rate` or
`stake_concentration_top10` to `0` — the keys are simply absent — while
the claim says these statistics "return their defined default value 0". -/
theorem empty_validators_keys_absent_counterexample :
    (calculate_network_stats []
        (some { circulating := some 1000000000, total := some 2000000000 })).map
      NetworkStats.staking_rate ≠ Except.ok (some 0) ∧
    (calculate_network_stats []
        (some { circulating := some 1000000000, total := some 2000000000 })).map
      NetworkStats.stake_concentration_top10 ≠ Except.ok (some 0) := by
  constructor <;> intro h <;>
    simp [calculate_network_stats, Except.map] at h

/-- The `int(x // (24*3600))` / `x % (24*3600)` / … cascade of
`render_epoch_staking_stats`: days, hours, minutes of a second count.
Python float `//` is `fun x y => ⌊x / y⌋`, `%` is `x − y * ⌊x / y⌋`, and
`int()` of an already-floored quotient is exact. -/
def dhm (secs : ℚ) : ℤ × ℤ × ℤ :=
  let days := ⌊secs / 86400⌋
  let rem1 := secs - 86400 * (days : ℚ)
  let hours := ⌊rem1 / 3600⌋
  let rem2 := rem1 - 3600 * (hours : ℚ)
  (days, hours, ⌊rem2 / 60⌋)

/-- The epoch-stats dict fields read by the time-remaining block. -/
structure EpochStats where
  slotIndex : Option ℚ
  slotsInEpoch : Option ℚ
  avg_slots_per_second : Option ℚ
deriving DecidableEq

/-- The epoch time-remaining block of `render_epoch_staking_stats`
(`components/network_stats.py`): inside the
`'slotIndex' in stats and 'slotsInEpoch' in stats` block the code computes
`slots_remaining` and, only under the guard
`'avg_slots_per_second' in stats and stats.get('avg_slots_per_second', 0) > 0`,
divides by `stats.get('avg_slots_per_second', 0.5)` and renders the
days/hours/minutes caption.  `Except.error ()` would mark a
`ZeroDivisionError`; `ok none` means no caption is rendered (the "unknown"
policy); `ok (some (d, h, m))` is the rendered decomposition. -/
def epoch_time_remaining (stats : EpochStats) : Except Unit (Option (ℤ × ℤ × ℤ)) :=
  if stats.slotIndex.isSome ∧ stats.slotsInEpoch.isSome then
    if stats.avg_slots_per_second.isSome ∧
        0 < stats.avg_slots_per_second.getD 0 then
      if stats.avg_slots_per_second.getD (1 / 2) = 0 then Except.error ()
      else
        Except.ok (some (dhm ((stats.slotsInEpoch.getD 0 - stats.slotIndex.getD 0)
          / stats.avg_slots_per_second.getD (1 / 2))))
    else Except.ok none
  else Except.ok none

/-- C9: the time-remaining computation never evaluates a division by zero
(no input produces the error value); `avg_slots_per_second` absent or `≤ 0`
yields the "unknown" outcome (`none`) rather than an error; and with all
fields present and `avg > 0` it yields the floor days/hours/minutes
decomposition of `(slotsInEpoch − slotIndex) / avg` seconds. -/
theorem epoch_time_no_div_by_zero (stats : EpochStats) :
    epoch_time_remaining stats ≠ Except.error () ∧
    ((stats.avg_slots_per_second = none ∨
        stats.avg_slots_per_second.getD 0 ≤ 0) →
      epoch_time_remaining stats = Except.ok none) ∧
    (∀ si se a : ℚ, stats.slotIndex = some si → stats.slotsInEpoch = some se →
      stats.avg_slots_per_second = some a → 0 < a →
      epoch_time_remaining stats = Except.ok (some (dhm ((se - si) / a)))) := by
  unfold epoch_time_remaining
  by_cases h1 : stats.slotIndex.isSome ∧ stats.slotsInEpoch.isSome
  · rw [if_pos h1]
    by_cases h2 : stats.avg_slots_per_second.isSome ∧
        0 < stats.avg_slots_per_second.getD 0
    · obtain ⟨a, ha⟩ := Option.isSome_iff_exists.mp h2.1
      have hapos : 0 < a := by
        have := h2.2
        rw [ha] at this
        simpa using this
      have hgd : stats.avg_slots_per_second.getD (1 / 2) = a := by
        rw [ha]
        rfl
      rw [if_pos h2, if_neg (by rw [hgd]; exact ne_of_gt hapos)]
      refine ⟨by simp, ?_, ?_⟩
      · rintro (h | h)
        · rw [h] at ha
          exact absurd ha (by simp)
        · rw [ha] at h
          simp at h
          linarith
      · intro si se a' hsi hse ha' hpos
        rw [ha] at ha'
        have haa : a = a' := by
          simpa using ha'
        rw [hsi, hse, hgd, haa]
        rfl
    · rw [if_neg h2]
      refine ⟨by simp, fun _ => rfl, ?_⟩
      intro si se a hsi hse ha hpos
      exact absurd ⟨by rw [ha]; rfl, by rw [ha]; simpa using hpos⟩ h2
  · rw [if_neg h1]
    refine ⟨by simp, fun _ => rfl, ?_⟩
    intro si se a hsi hse ha hpos
    exact absurd ⟨by rw [hsi]; rfl, by rw [hse]; rfl⟩ h1

/-- Witness for C9 at `slotIndex = 100`, `slotsInEpoch = 432100`,
`avg_slots_per_second = 2`. -/
theorem epoch_time_no_div_by_zero_witness :
    (0 : ℚ) < 2 ∧
    epoch_time_remaining
        { slotIndex := some 100, slotsInEpoch := some 432100,
          avg_slots_per_second := some 2 } =
      Except.ok (some (dhm ((432100 - 100) / 2))) :=
  ⟨by norm_num,
    (epoch_time_no_div_by_zero
      { slotIndex := some 100, slotsInEpoch := some 432100,
        avg_slots_per_second := some 2 }).2.2 100 432100 2 rfl rfl rfl
      (by norm_num)⟩

end Staking
